import Mathlib

/-!
Shallow embedding of the `epee` stream-manager library (Go) and proofs about
it.  The embedding covers:

* the in-memory coordination (Zookeeper) client test double
  (`mockZookeeperClient`: `List`, `Get`, `Set`), including a translation of
  the Go stdlib `path.Dir`/`path.Clean` it relies on;
* broker discovery (`findRegisteredBrokers`);
* the connection bootstrap retry loop (`MustGetZookeeperClient`);
* the session registry (`kafkaStreamImpl`): `Consume` with its
  retry-on-unknown-topic loop and offset normalization, `CancelConsumer`,
  and `Close`.

Go's concurrency is modelled sequentially: every registry operation is atomic
(in the source each registry mutation happens under one mutex).  Loops that
can run forever are given explicit fuel; a `none` result means the loop was
still running when the fuel ran out.  Machine integers are modelled as `Int`
(with an explicit wrap where a conversion occurs), byte strings as `String`,
and the `encoding/json` marshal/unmarshal round trip (Go standard library,
outside this repository) is modelled as the identity on stored values, with
`Unmarshal` into an existing map modelled as key-merge, which is its
documented behaviour for maps.
-/

namespace Epee

/-- Leaf of a decoded JSON object as used by the broker-registration entries:
a string or a number.  JSON numbers decode to Go `float64`; the entries this
code reads (ports) are nonnegative integers, modelled as `Nat`. -/
inductive JLeaf
  | jstr (s : String)
  | jnum (n : Nat)
deriving DecidableEq

/-- Decoded form of a stored value: the Go `map[string]interface{}` that
`findRegisteredBrokers` decodes into, as an association list with the map's
(unique) keys. -/
abbrev JObj := List (String × JLeaf)

/-- Errors produced by a coordination client: the package-level
`ErrNotFound` sentinel, or any other error (coded). -/
inductive ZkErr
  | notFound
  | other (code : Nat)
deriving DecidableEq

/-- Association-list lookup, first match wins (Go map lookup; the stores we
build keep keys unique). -/
def assocFind {α : Type} (k : String) : List (String × α) → Option α
  | [] => none
  | (k2, v) :: rest => if k2 = k then some v else assocFind k rest

/-- Association-list update, overwrite-or-append (Go map assignment
`m[k] = v`). -/
def assocPut {α : Type} (k : String) (v : α) : List (String × α) → List (String × α)
  | [] => [(k, v)]
  | (k2, w) :: rest => if k2 = k then (k, v) :: rest else (k2, w) :: assocPut k v rest

/-- Buffer backtracking inside Go stdlib `path.Clean` when a `..` element is
met and the buffer holds something to drop: mirrors
`out.w--; for out.w > dotdot && out.index(out.w) != '/' { out.w-- }` with the
output buffer kept in reverse order (head = most recently written byte). -/
def btLoop (dotdot : Nat) : List Char → List Char
  | [] => []
  | c :: rest => if dotdot < rest.length ∧ c ≠ '/' then btLoop dotdot rest else rest

/-- Main loop of Go stdlib `path.Clean`, output buffer in reverse order.
`fuel` bounds the iterations; each iteration consumes at least one input
character, so passing the input's length as fuel makes the bound
unreachable. -/
def cleanLoop (rooted : Bool) : Nat → List Char → List Char → Nat → List Char
  | 0, _, out, _ => out
  | _ + 1, [], out, _ => out
  | fuel + 1, c :: rest, out, dotdot =>
    if c = '/' then
      cleanLoop rooted fuel rest out dotdot
    else if c = '.' ∧ (rest = [] ∨ rest.head? = some '/') then
      cleanLoop rooted fuel rest out dotdot
    else if c = '.' ∧ rest.head? = some '.' ∧ (rest.tail = [] ∨ rest.tail.head? = some '/') then
      if dotdot < out.length then
        cleanLoop rooted fuel rest.tail (btLoop dotdot out) dotdot
      else if rooted = false then
        let out2 := if 0 < out.length then '.' :: '.' :: '/' :: out else '.' :: '.' :: out
        cleanLoop rooted fuel rest.tail out2 out2.length
      else
        cleanLoop rooted fuel rest.tail out dotdot
    else
      let sep := (rooted = true ∧ out.length ≠ 1) ∨ (rooted = false ∧ out.length ≠ 0)
      let base := if sep then '/' :: out else out
      let word := (c :: rest).takeWhile (fun ch => ch ≠ '/')
      cleanLoop rooted fuel ((c :: rest).dropWhile (fun ch => ch ≠ '/')) (word.reverse ++ base) dotdot

/-- Translation of Go stdlib `path.Clean` (lexical cleaning), which the mock
client's `List` reaches through `path.Dir`. -/
def goPathClean (p : String) : String :=
  if p = "" then "."
  else
    let cs := p.toList
    let rooted := cs.head? = some '/'
    let rem := if rooted then cs.tail else cs
    let out0 : List Char := if rooted then ['/'] else []
    let dd0 : Nat := if rooted then 1 else 0
    let res := cleanLoop rooted rem.length rem out0 dd0
    if res.length = 0 then "." else String.mk res.reverse

/-- Translation of Go stdlib `path.Dir`: keep everything up to and including
the last slash (`path.Split`), then `Clean` it. -/
def goPathDir (p : String) : String :=
  let cs := p.toList
  let dirPart := (cs.reverse.dropWhile (fun c => c ≠ '/')).reverse
  goPathClean (String.mk dirPart)

/-- In-memory coordination client test double: a store from paths to values.
The stored bytes are `json.Marshal` output of the written value; since the
marshal/unmarshal round trip is the identity (standard library), the store
holds decoded values directly. -/
structure mockZookeeperClient where
  paths : List (String × JObj)
deriving DecidableEq

/-- Go `json.Unmarshal` into an existing `map[string]interface{}` merges the
decoded keys into the map (overwriting on collision). -/
def jsonUnmarshalInto (out v : JObj) : JObj :=
  v.foldl (fun acc kv => assocPut kv.1 kv.2 acc) out

/-- `mockZookeeperClient.List`: empty prefix yields an empty result; a
trailing slash is stripped; then every stored key whose `path.Dir` equals the
prefix is returned.  The Go map iteration order is arbitrary; the model uses
the store's list order.  The error result is always nil. -/
def mockZookeeperClient.List (zk : mockZookeeperClient) (pfx : String) :
    Except ZkErr (List String) :=
  if pfx = "" then Except.ok []
  else
    let pfx2 := if pfx.toList.getLast? = some '/' then String.mk pfx.toList.dropLast else pfx
    Except.ok ((zk.paths.map Prod.fst).filter (fun k => goPathDir k = pfx2))

/-- `mockZookeeperClient.Get`: absent key fails with `ErrNotFound`, leaving
the out-parameter untouched; a present key unmarshals the stored bytes into
the out-parameter.  Returns (error, resulting out-value). -/
def mockZookeeperClient.Get (zk : mockZookeeperClient) (p : String) (out : JObj) :
    Option ZkErr × JObj :=
  match assocFind p zk.paths with
  | none => (some ZkErr.notFound, out)
  | some v => (none, jsonUnmarshalInto out v)

/-- `mockZookeeperClient.Set`: marshals the value and stores it under the
path.  `json.Marshal` of these values (strings and finite numbers) cannot
fail, so the error branch is always nil and the store is always updated. -/
def mockZookeeperClient.Set (zk : mockZookeeperClient) (p : String) (v : JObj) :
    mockZookeeperClient × Option ZkErr :=
  (⟨assocPut p v zk.paths⟩, none)

/-- The `ZookeeperClient` interface as `findRegisteredBrokers` consumes it:
list keys under a prefix, fetch-and-decode one key into a fresh map.  (The
interface also has `Set`, unused by discovery.) -/
structure ZookeeperClient where
  list : String → Except ZkErr (List String)
  get : String → JObj → Option ZkErr × JObj

/-- View of the mock as the `ZookeeperClient` interface. -/
def mockZookeeperClient.toClient (zk : mockZookeeperClient) : ZookeeperClient where
  list := zk.List
  get := zk.Get

/-- Go `fmt` `%s` verb applied to an `interface{}` from a decoded JSON map:
a string prints itself; other contents produce fmt's diagnostic form. -/
def sprintfS : Option JLeaf → String
  | some (JLeaf.jstr s) => s
  | some (JLeaf.jnum n) => "%!s(float64=" ++ toString n ++ ")"
  | none => "%!s(<nil>)"

/-- Go `fmt` `%0.0f` verb: a number prints with no decimals; other contents
produce fmt's diagnostic form. -/
def sprintfF00 : Option JLeaf → String
  | some (JLeaf.jnum n) => toString n
  | some (JLeaf.jstr s) => "%!f(string=" ++ s ++ ")"
  | none => "%!f(<nil>)"

/-- `fmt.Sprintf("%s:%0.0f", data["host"], data["port"])` from
`findRegisteredBrokers`. -/
def formatBroker (data : JObj) : String :=
  sprintfS (assocFind "host" data) ++ ":" ++ sprintfF00 (assocFind "port" data)

/-- Loop body of `findRegisteredBrokers`: fetch and format each listed path,
accumulating; any `Get` error aborts with a fresh empty result. -/
def brokersLoop (zk : ZookeeperClient) : List String → List String → List String × Option ZkErr
  | [], acc => (acc, none)
  | p :: rest, acc =>
    let r := zk.get p []
    match r.1 with
    | some e => ([], some e)
    | none => brokersLoop zk rest (acc ++ [formatBroker r.2])

/-- `findRegisteredBrokers`: list `/brokers/ids`, then fetch, decode and
format each entry as `host:port`.  A listing or fetch error is returned with
an empty slice (Go returns `[]string{}, err`). -/
def findRegisteredBrokers (zk : ZookeeperClient) : List String × Option ZkErr :=
  match zk.list "/brokers/ids" with
  | Except.error e => ([], some e)
  | Except.ok paths => brokersLoop zk paths []

/-- Result of one `NewZookeeperClient` call: a connected client (coded) or a
failure (coded). -/
inductive ZkConnResult
  | ok (client : Nat)
  | fail (e : Nat)
deriving DecidableEq

/-- Loop of `MustGetZookeeperClient`.  `conn i` is the result of the `i`-th
connection attempt; `attempts` is the Go counter; `fuel` bounds the unfolding
(`none` = still looping).  `Except.error e` models `panic(err)`;
`Except.ok c` models a successful return. -/
def mustGetLoop (conn : Nat → ZkConnResult) (retry : Int) :
    Nat → Nat → Nat → Option (Except Nat Nat)
  | _, _, 0 => none
  | i, attempts, fuel + 1 =>
    match conn i with
    | ZkConnResult.ok c => some (Except.ok c)
    | ZkConnResult.fail e =>
      let attempts2 := if 0 < retry then attempts + 1 else attempts
      if retry < (attempts2 : Int) then some (Except.error e)
      else mustGetLoop conn retry (i + 1) attempts2 fuel

/-- `MustGetZookeeperClient(servers, retry)` modelled over a connection
oracle, starting with attempt index 0 and counter 0. -/
def MustGetZookeeperClient (conn : Nat → ZkConnResult) (retry : Int) (fuel : Nat) :
    Option (Except Nat Nat) :=
  mustGetLoop conn retry 0 0 fuel

/-- Error from `sarama.Consumer.ConsumePartition`: the distinguished
`ErrUnknownTopicOrPartition` sentinel, or any other error (coded). -/
inductive TErr
  | unknownTopicOrPartition
  | other (code : Nat)
deriving DecidableEq

/-- Result of one `ConsumePartition` call: a partition consumer handle
(coded) or an error. -/
inductive OpenResult
  | ok (pc : Nat)
  | fail (e : TErr)
deriving DecidableEq

/-- Errors `Consume` can return: the package `ErrStreamClosing` sentinel, or
a transport error passed through. -/
inductive KErr
  | streamClosing
  | transport (e : TErr)
deriving DecidableEq

/-- State of a `kafkaStreamImpl` registry.  Sessions (`*StreamConsumer`
pointers) are coded as naturals; `consumers` is the key set of the Go map
(unique keys), `closing` the shutdown flag.  `closeCalls` instruments the
registry: it logs every `sc.Close()` invocation the registry makes, so that
"closed exactly once" is the count of a session in this log.
`transportClosed` records `ks.consumer.Close()` (releasing the transport). -/
structure RegState where
  consumers : List Nat
  closing : Bool
  closeCalls : List Nat
  transportClosed : Bool
deriving DecidableEq

/-- The `sarama.OffsetOldest` sentinel (-2 in sarama). -/
def sarama_OffsetOldest : Int := -2

/-- Go `int32(n)` conversion (two's-complement wrap), applied to the
partition argument. -/
def toInt32 (n : Int) : Int := (n + 2 ^ 31) % 2 ^ 32 - 2 ^ 31

/-- Transport oracle standing for `ks.consumer`: the result of
`ConsumePartition(topic, partition, offset)` on its `k`-th invocation with
those arguments. -/
abbrev Transport := String → Int → Int → Nat → OpenResult

/-- The retry loop inside `Consume`: call `ConsumePartition`; on
`ErrUnknownTopicOrPartition` wait and retry, on any other error stop with
that error, on success stop with the handle.  Returns the outcome (`none` =
fuel exhausted, still retrying) and the number of open attempts made. -/
def openLoop (t : Nat → OpenResult) : Nat → Nat → Option (Except TErr Nat) × Nat
  | _, 0 => (none, 0)
  | attempt, fuel + 1 =>
    match t attempt with
    | OpenResult.ok pc => (some (Except.ok pc), 1)
    | OpenResult.fail e =>
      if e = TErr.unknownTopicOrPartition then
        let r := openLoop t (attempt + 1) fuel
        (r.1, r.2 + 1)
      else (some (Except.error e), 1)

/-- Outcome of one `Consume` call: the registry state afterwards, the return
value (`none` = the open loop was still retrying at the fuel bound,
`some (Except.ok sc)` = the session was created and registered,
`some (Except.error e)` = the error returned), and the list of offsets passed
to `ConsumePartition`, one per attempt made. -/
structure ConsumeResult where
  newState : RegState
  ret : Option (Except KErr Nat)
  openedAt : List Int

/-- `kafkaStreamImpl.Consume(topic, partition, offset)`.  Rejects immediately
when `closing`; normalizes offset 0 to `sarama.OffsetOldest`; runs the open
retry loop; on success registers the fresh session `sc` (map insert under the
lock) and returns it.  `sc` codes the fresh `*StreamConsumer` allocated by
this call. -/
def consume (st : RegState) (t : Transport) (topic : String) (partition : Int)
    (offset : Int) (fuel : Nat) (sc : Nat) : ConsumeResult :=
  if st.closing then ⟨st, some (Except.error KErr.streamClosing), []⟩
  else
    let off := if offset = 0 then sarama_OffsetOldest else offset
    let r := openLoop (t topic (toInt32 partition) off) 0 fuel
    let opened := List.replicate r.2 off
    match r.1 with
    | none => ⟨st, none, opened⟩
    | some (Except.error e) => ⟨st, some (Except.error (KErr.transport e)), opened⟩
    | some (Except.ok _) =>
      ⟨{ st with consumers := st.consumers.insert sc }, some (Except.ok sc), opened⟩

/-- `kafkaStreamImpl.CancelConsumer(sc)`: under the lock, if `sc` is still
registered, close it and delete it from the map; always return nil. -/
def cancelConsumer (st : RegState) (sc : Nat) : RegState × Option KErr :=
  if sc ∈ st.consumers then
    ({ st with consumers := st.consumers.erase sc,
               closeCalls := st.closeCalls ++ [sc] }, none)
  else (st, none)

/-- Observable steps of `kafkaStreamImpl.Close()`, in program order. -/
inductive CloseEvent
  | setClosing
  | sessionClose (sc : Nat)
  | releaseConn
deriving DecidableEq

/-- `kafkaStreamImpl.Close()`: under the lock, set `closing`, call `Close` on
every registered session (map iteration; the model uses the list's order),
then close the underlying `sarama.Consumer`.  Returns the new state and the
event trace in program order.  The map itself is not modified. -/
def close (st : RegState) : RegState × List CloseEvent :=
  ({ st with closing := true,
             closeCalls := st.closeCalls ++ st.consumers,
             transportClosed := true },
   CloseEvent.setClosing :: st.consumers.map CloseEvent.sessionClose
     ++ [CloseEvent.releaseConn])

/-- One registry API call, for reasoning about call sequences. -/
inductive Op
  | consumeOp (t : Transport) (topic : String) (partition : Int) (offset : Int)
      (fuel : Nat) (sc : Nat)
  | cancelOp (sc : Nat)
  | closeOp

/-- State transition of one registry API call (the sequential semantics: each
call's registry mutation is atomic under the source's mutex). -/
def step (st : RegState) : Op → RegState
  | Op.consumeOp t topic partition offset fuel sc =>
    (consume st t topic partition offset fuel sc).newState
  | Op.cancelOp sc => (cancelConsumer st sc).1
  | Op.closeOp => (close st).1

/-- Run a sequence of registry API calls. -/
def run (st : RegState) (ops : List Op) : RegState := ops.foldl step st

/-- The spec's example store:
`{"/brokers/ids/0": {"host":"a","port":9092}, "/brokers/ids/1": {"host":"b","port":9093}}`. -/
def exampleZk : mockZookeeperClient :=
  ⟨[("/brokers/ids/0", [("host", JLeaf.jstr "a"), ("port", JLeaf.jnum 9092)]),
    ("/brokers/ids/1", [("host", JLeaf.jstr "b"), ("port", JLeaf.jnum 9093)])]⟩

/-- A coordination client whose listing always fails (for exercising the
error-propagation path of broker discovery). -/
def errListClient : ZookeeperClient :=
  ⟨fun _ => Except.error (ZkErr.other 3), fun _ out => (none, out)⟩

/-! ### Helper lemmas about the open retry loop -/

theorem openLoop_ne_unknown (t : Nat → OpenResult) (fuel attempt : Nat) :
    (openLoop t attempt fuel).1 ≠
      some (Except.error TErr.unknownTopicOrPartition) := by
  induction fuel generalizing attempt with
  | zero => simp [openLoop]
  | succ n ih =>
    simp only [openLoop]
    cases t attempt with
    | ok pc => simp
    | fail e =>
      by_cases he : e = TErr.unknownTopicOrPartition
      · simpa [he] using ih (attempt + 1)
      · simp [he]

theorem openLoop_all_unknown (t : Nat → OpenResult) (fuel attempt : Nat)
    (h : ∀ k, t k = OpenResult.fail TErr.unknownTopicOrPartition) :
    (openLoop t attempt fuel).1 = none := by
  induction fuel generalizing attempt with
  | zero => simp [openLoop]
  | succ n ih => simpa [openLoop, h attempt] using ih (attempt + 1)

theorem openLoop_first_other (t : Nat → OpenResult) (fuel attempt : Nat)
    (e : TErr) (he : e ≠ TErr.unknownTopicOrPartition)
    (h : t attempt = OpenResult.fail e) :
    openLoop t attempt (fuel + 1) = (some (Except.error e), 1) := by
  simp [openLoop, h, he]

theorem openLoop_success_after (t : Nat → OpenResult) (k pc : Nat) :
    ∀ fuel attempt,
      (∀ j, j < k → t (attempt + j) = OpenResult.fail TErr.unknownTopicOrPartition) →
      t (attempt + k) = OpenResult.ok pc → k < fuel →
      openLoop t attempt fuel = (some (Except.ok pc), k + 1) := by
  induction k with
  | zero =>
    intro fuel attempt _ hk hf
    match fuel, hf with
    | n + 1, _ =>
      have hk0 : t attempt = OpenResult.ok pc := by simpa using hk
      simp [openLoop, hk0]
  | succ m ih =>
    intro fuel attempt hj hk hf
    match fuel, hf with
    | n + 1, hf =>
      have h0 : t attempt = OpenResult.fail TErr.unknownTopicOrPartition := by
        simpa using hj 0 (Nat.succ_pos m)
      have hrec := ih n (attempt + 1)
        (fun j hjm => by
          have := hj (j + 1) (Nat.succ_lt_succ hjm)
          simpa [Nat.add_assoc, Nat.add_comm 1 j] using this)
        (by simpa [Nat.add_assoc, Nat.add_comm 1 m] using hk)
        (Nat.lt_of_succ_lt_succ hf)
      simp [openLoop, h0, hrec]

theorem openLoop_err_after (t : Nat → OpenResult) (k : Nat) (e : TErr)
    (he : e ≠ TErr.unknownTopicOrPartition) :
    ∀ fuel attempt,
      (∀ j, j < k → t (attempt + j) = OpenResult.fail TErr.unknownTopicOrPartition) →
      t (attempt + k) = OpenResult.fail e → k < fuel →
      openLoop t attempt fuel = (some (Except.error e), k + 1) := by
  induction k with
  | zero =>
    intro fuel attempt _ hk hf
    match fuel, hf with
    | n + 1, _ =>
      have hk0 : t attempt = OpenResult.fail e := by simpa using hk
      simp [openLoop, hk0, he]
  | succ m ih =>
    intro fuel attempt hj hk hf
    match fuel, hf with
    | n + 1, hf =>
      have h0 : t attempt = OpenResult.fail TErr.unknownTopicOrPartition := by
        simpa using hj 0 (Nat.succ_pos m)
      have hrec := ih n (attempt + 1)
        (fun j hjm => by
          have := hj (j + 1) (Nat.succ_lt_succ hjm)
          simpa [Nat.add_assoc, Nat.add_comm 1 j] using this)
        (by simpa [Nat.add_assoc, Nat.add_comm 1 m] using hk)
        (Nat.lt_of_succ_lt_succ hf)
      simp [openLoop, h0, hrec]

theorem openLoop_attempts_pos (t : Nat → OpenResult) (fuel attempt : Nat)
    (h : 0 < fuel) : 1 ≤ (openLoop t attempt fuel).2 := by
  match fuel, h with
  | n + 1, _ =>
    simp only [openLoop]
    cases t attempt with
    | ok pc => simp
    | fail e =>
      by_cases he : e = TErr.unknownTopicOrPartition <;> simp [he]

/-- Shape of `Consume`'s result components when the registry is not closing:
every attempt is made at the normalized offset, and the return value is the
loop's outcome with transport errors wrapped. -/
theorem consume_openedAt (st : RegState) (t : Transport) (topic : String)
    (partition offset : Int) (fuel sc : Nat) (h : st.closing = false) :
    (consume st t topic partition offset fuel sc).openedAt =
      List.replicate
        (openLoop (t topic (toInt32 partition)
          (if offset = 0 then sarama_OffsetOldest else offset)) 0 fuel).2
        (if offset = 0 then sarama_OffsetOldest else offset) := by
  simp only [consume, h, Bool.false_eq_true, if_false]
  split <;> rfl

theorem consume_ret (st : RegState) (t : Transport) (topic : String)
    (partition offset : Int) (fuel sc : Nat) (h : st.closing = false) :
    (consume st t topic partition offset fuel sc).ret =
      match (openLoop (t topic (toInt32 partition)
          (if offset = 0 then sarama_OffsetOldest else offset)) 0 fuel).1 with
      | none => none
      | some (Except.error e) => some (Except.error (KErr.transport e))
      | some (Except.ok _) => some (Except.ok sc) := by
  simp only [consume, h, Bool.false_eq_true, if_false]
  rcases hres : (openLoop (t topic (toInt32 partition)
      (if offset = 0 then sarama_OffsetOldest else offset)) 0 fuel).1 with _ | r
  · simp [hres]
  · cases r <;> simp [hres]

/-! ### Claim theorems -/

/-- C1: every `Consume(topic, partition, offset)` call made while the
registry's `closing` flag is true returns immediately with the
`ErrStreamClosing` error and no session, making no open attempt, and leaves
the registry state (in particular its session set) unchanged. -/
theorem Consume_closing_rejects (st : RegState) (t : Transport) (topic : String)
    (partition offset : Int) (fuel sc : Nat) (h : st.closing = true) :
    consume st t topic partition offset fuel sc =
      ⟨st, some (Except.error KErr.streamClosing), []⟩ := by
  simp [consume, h]

/-- Witness for C1 at a concrete closing registry. -/
theorem Consume_closing_rejects_witness :
    (RegState.mk [7] true [] false).closing = true ∧
    consume (RegState.mk [7] true [] false) (fun _ _ _ _ => OpenResult.ok 1)
        "logs" 3 0 5 9 =
      ⟨RegState.mk [7] true [] false,
        some (Except.error KErr.streamClosing), []⟩ :=
  ⟨rfl, Consume_closing_rejects (RegState.mk [7] true [] false)
    (fun _ _ _ _ => OpenResult.ok 1) "logs" 3 0 5 9 rfl⟩

/-- C3: a `Consume` call with offset 0 makes every partition-open attempt at
the `sarama.OffsetOldest` sentinel (which is not literal offset 0), making at
least one such attempt; a call with any nonzero offset makes every attempt at
that literal offset. -/
theorem Consume_offset_zero_oldest (st : RegState) (t : Transport)
    (topic : String) (partition : Int) (fuel sc : Nat)
    (h : st.closing = false) (hf : 0 < fuel) :
    ((consume st t topic partition 0 fuel sc).openedAt ≠ [] ∧
      ∀ x ∈ (consume st t topic partition 0 fuel sc).openedAt,
        x = sarama_OffsetOldest) ∧
    (∀ off : Int, off ≠ 0 →
      ∀ x ∈ (consume st t topic partition off fuel sc).openedAt, x = off) ∧
    sarama_OffsetOldest ≠ 0 := by
  refine ⟨⟨?_, ?_⟩, ?_, by simp [sarama_OffsetOldest]⟩
  · rw [consume_openedAt st t topic partition 0 fuel sc h]
    have h1 := openLoop_attempts_pos
      (t topic (toInt32 partition) sarama_OffsetOldest) fuel 0 hf
    intro heq
    have h2 := congrArg List.length heq
    simp at h2
    omega
  · rw [consume_openedAt st t topic partition 0 fuel sc h]
    intro x hx
    simpa using List.eq_of_mem_replicate hx
  · intro off hoff x hx
    rw [consume_openedAt st t topic partition off fuel sc h] at hx
    simpa [hoff] using List.eq_of_mem_replicate hx

/-- Witness for C3 at a concrete open registry and transport. -/
theorem Consume_offset_zero_oldest_witness :
    ((RegState.mk [] false [] false).closing = false ∧ 0 < 3) ∧
    ((consume (RegState.mk [] false [] false) (fun _ _ _ _ => OpenResult.ok 4)
        "logs" 1 0 3 9).openedAt ≠ [] ∧
      ∀ x ∈ (consume (RegState.mk [] false [] false)
          (fun _ _ _ _ => OpenResult.ok 4) "logs" 1 0 3 9).openedAt,
        x = sarama_OffsetOldest) :=
  ⟨⟨rfl, by decide⟩,
    (Consume_offset_zero_oldest (RegState.mk [] false [] false)
      (fun _ _ _ _ => OpenResult.ok 4) "logs" 1 3 9 rfl (by decide)).1⟩

/-- C4: with the registry open, `Consume` never returns the
unknown-topic-or-partition transport error to the caller; if every open
attempt reports unknown-topic-or-partition the loop never returns (it is
still retrying at every fuel bound); a different error arriving on any
attempt — after any number of unknown-topic-or-partition retries — is
returned immediately, with no further open attempt made; and a success after
`k` unknown-topic-or-partition attempts returns the new session. -/
theorem Consume_unknown_retry_policy (st : RegState) (t : Transport)
    (topic : String) (partition offset : Int) (fuel sc : Nat)
    (h : st.closing = false) :
    ((consume st t topic partition offset fuel sc).ret ≠
      some (Except.error (KErr.transport TErr.unknownTopicOrPartition))) ∧
    ((∀ k, t topic (toInt32 partition)
        (if offset = 0 then sarama_OffsetOldest else offset) k =
        OpenResult.fail TErr.unknownTopicOrPartition) →
      (consume st t topic partition offset fuel sc).ret = none) ∧
    (∀ k e, e ≠ TErr.unknownTopicOrPartition →
      (∀ j, j < k → t topic (toInt32 partition)
        (if offset = 0 then sarama_OffsetOldest else offset) j =
        OpenResult.fail TErr.unknownTopicOrPartition) →
      t topic (toInt32 partition)
        (if offset = 0 then sarama_OffsetOldest else offset) k =
        OpenResult.fail e →
      k < fuel →
      (consume st t topic partition offset fuel sc).ret =
        some (Except.error (KErr.transport e)) ∧
      (consume st t topic partition offset fuel sc).openedAt.length = k + 1) ∧
    (∀ k pc,
      (∀ j, j < k → t topic (toInt32 partition)
        (if offset = 0 then sarama_OffsetOldest else offset) j =
        OpenResult.fail TErr.unknownTopicOrPartition) →
      t topic (toInt32 partition)
        (if offset = 0 then sarama_OffsetOldest else offset) k =
        OpenResult.ok pc →
      k < fuel →
      (consume st t topic partition offset fuel sc).ret =
        some (Except.ok sc)) := by
  set off := if offset = 0 then sarama_OffsetOldest else offset with hoff
  refine ⟨?_, ?_, ?_, ?_⟩
  · rw [consume_ret st t topic partition offset fuel sc h]
    rcases hres : (openLoop (t topic (toInt32 partition) off) 0 fuel).1 with _ | r
    · simp
    · cases r with
      | error e =>
        have hne := openLoop_ne_unknown (t topic (toInt32 partition) off) fuel 0
        rw [hres] at hne
        simp only []
        intro hc
        apply hne
        simp only [Option.some.injEq, Except.error.injEq, KErr.transport.injEq] at hc
        rw [hc]
      | ok p => simp
  · intro hall
    rw [consume_ret st t topic partition offset fuel sc h,
      openLoop_all_unknown (t topic (toInt32 partition) off) fuel 0 hall]
  · intro k e he hj hk hf
    have hl := openLoop_err_after (t topic (toInt32 partition) off) k e he fuel 0
      (by simpa using hj) (by simpa using hk) hf
    constructor
    · rw [consume_ret st t topic partition offset fuel sc h, hl]
    · rw [consume_openedAt st t topic partition offset fuel sc h, hl]
      simp
  · intro k pc hj hk hf
    have hl := openLoop_success_after (t topic (toInt32 partition) off) k pc fuel 0
      (by simpa using hj) (by simpa using hk) hf
    rw [consume_ret st t topic partition offset fuel sc h, hl]

/-- Witness for C4: a transport failing twice with unknown-topic-or-partition
and then with a different error; the call returns exactly that error after
exactly three attempts, and no unknown-topic-or-partition error reaches the
caller.  A second transport that succeeds after two
unknown-topic-or-partition failures returns the session. -/
theorem Consume_unknown_retry_policy_witness :
    ((consume (RegState.mk [] false [] false)
        (fun _ _ _ k => if k < 2
          then OpenResult.fail TErr.unknownTopicOrPartition
          else OpenResult.fail (TErr.other 9)) "logs" 1 0 9 5).ret ≠
      some (Except.error (KErr.transport TErr.unknownTopicOrPartition))) ∧
    ((consume (RegState.mk [] false [] false)
        (fun _ _ _ k => if k < 2
          then OpenResult.fail TErr.unknownTopicOrPartition
          else OpenResult.fail (TErr.other 9)) "logs" 1 0 9 5).ret =
      some (Except.error (KErr.transport (TErr.other 9)))) ∧
    ((consume (RegState.mk [] false [] false)
        (fun _ _ _ k => if k < 2
          then OpenResult.fail TErr.unknownTopicOrPartition
          else OpenResult.fail (TErr.other 9)) "logs" 1 0 9 5).openedAt.length = 3) ∧
    ((consume (RegState.mk [] false [] false)
        (fun _ _ _ k => if k < 2
          then OpenResult.fail TErr.unknownTopicOrPartition
          else OpenResult.ok 4) "logs" 1 0 9 5).ret =
      some (Except.ok 5)) := by
  have hc := Consume_unknown_retry_policy (RegState.mk [] false [] false)
    (fun _ _ _ k => if k < 2
      then OpenResult.fail TErr.unknownTopicOrPartition
      else OpenResult.fail (TErr.other 9)) "logs" 1 0 9 5 rfl
  have hok := Consume_unknown_retry_policy (RegState.mk [] false [] false)
    (fun _ _ _ k => if k < 2
      then OpenResult.fail TErr.unknownTopicOrPartition
      else OpenResult.ok 4) "logs" 1 0 9 5 rfl
  have h3 := hc.2.2.1 2 (TErr.other 9) (by decide)
    (fun j hj => by simp [hj]) rfl (by decide)
  exact ⟨hc.1, h3.1, h3.2,
    hok.2.2.2 2 4 (fun j hj => by simp [hj]) rfl (by decide)⟩

/-- C6 (divergence witness): `MustGetZookeeperClient` with the negative retry
budget -1 escalates (panics) on the very first failed connection attempt, at
any fuel bound, instead of retrying indefinitely as its own documentation
("If retry <= 0, it will retry for forever") and the spec state: with
`retry = -1` the counter stays 0 and the Go test `attempts > retry` is
`0 > -1`, which already holds. -/
theorem MustGet_negative_budget_escalates_first_failure :
    MustGetZookeeperClient (fun _ => ZkConnResult.fail 7) (-1) 1 =
      some (Except.error 7) ∧
    MustGetZookeeperClient (fun _ => ZkConnResult.fail 7) (-1) 1000 =
      some (Except.error 7) ∧
    MustGetZookeeperClient (fun _ => ZkConnResult.fail 7) 0 1000 = none := by
  refine ⟨rfl, ?_, ?_⟩
  · rfl
  · show mustGetLoop (fun _ => ZkConnResult.fail 7) 0 0 0 1000 = none
    have hstep : ∀ n i, mustGetLoop (fun _ => ZkConnResult.fail 7) 0 i 0 n = none := by
      intro n
      induction n with
      | zero => intro i; rfl
      | succ m ih => intro i; simpa [mustGetLoop] using ih (i + 1)
    exact hstep 1000 0

/-! ### Registry algebra and invariants -/

/-- C2: `CancelConsumer` is idempotent.  Two sequential calls on the same
session both return nil; across the two calls the session's `Close` is
invoked exactly once when the session was registered (on the first call) and
never otherwise; the second call leaves the registry unchanged; and a call on
a never-registered session is a no-op returning nil without invoking
`Close`. -/
theorem CancelConsumer_idempotent (st : RegState) (sc : Nat)
    (h : st.consumers.Nodup) :
    (cancelConsumer st sc).2 = none ∧
    (cancelConsumer (cancelConsumer st sc).1 sc).2 = none ∧
    (cancelConsumer (cancelConsumer st sc).1 sc).1 = (cancelConsumer st sc).1 ∧
    ((cancelConsumer (cancelConsumer st sc).1 sc).1.closeCalls.count sc =
      st.closeCalls.count sc + (if sc ∈ st.consumers then 1 else 0)) ∧
    (sc ∈ st.consumers →
      (cancelConsumer st sc).1.closeCalls.count sc =
        st.closeCalls.count sc + 1) ∧
    (sc ∉ st.consumers → cancelConsumer st sc = (st, none)) := by
  by_cases hm : sc ∈ st.consumers
  · have hgone : sc ∉ st.consumers.erase sc := h.not_mem_erase
    refine ⟨by simp [cancelConsumer, hm], ?_, ?_, ?_, ?_, by simp [hm]⟩
    · simp [cancelConsumer, hm, hgone]
    · simp [cancelConsumer, hm, hgone]
    · simp [cancelConsumer, hm, hgone]
    · intro _
      simp [cancelConsumer, hm]
  · refine ⟨by simp [cancelConsumer, hm], ?_, ?_, ?_, by simp [hm], ?_⟩ <;>
      simp [cancelConsumer, hm]

/-- Witness for C2 at a registered and a never-registered session. -/
theorem CancelConsumer_idempotent_witness :
    (cancelConsumer (RegState.mk [4, 6] false [] false) 4).2 = none ∧
    (cancelConsumer (cancelConsumer (RegState.mk [4, 6] false [] false) 4).1 4).1 =
      (cancelConsumer (RegState.mk [4, 6] false [] false) 4).1 ∧
    (cancelConsumer (cancelConsumer (RegState.mk [4, 6] false [] false) 4).1
        4).1.closeCalls.count 4 = 1 ∧
    cancelConsumer (RegState.mk [4, 6] false [] false) 9 =
      (RegState.mk [4, 6] false [] false, none) := by
  have h1 := CancelConsumer_idempotent (RegState.mk [4, 6] false [] false) 4
    (by decide)
  have h2 := CancelConsumer_idempotent (RegState.mk [4, 6] false [] false) 9
    (by decide)
  refine ⟨h1.1, h1.2.2.1, ?_, h2.2.2.2.2.2 (by decide)⟩
  have h3 := h1.2.2.2.1
  simpa using h3

/-- C5: `Close` first sets the `closing` flag, then closes every session
registered at that moment exactly once, and releases the transport connection
as the last event, so no session close happens after the release. -/
theorem Close_drain_order (st : RegState) (h : st.consumers.Nodup) :
    (close st).1.closing = true ∧
    (close st).2.head? = some CloseEvent.setClosing ∧
    (∀ sc ∈ st.consumers,
      (close st).2.count (CloseEvent.sessionClose sc) = 1) ∧
    (close st).2.getLast? = some CloseEvent.releaseConn ∧
    (∀ l1 l2, (close st).2 = l1 ++ CloseEvent.releaseConn :: l2 → l2 = []) := by
  have hinj : Function.Injective CloseEvent.sessionClose := by
    intro a b hab
    cases hab
    rfl
  refine ⟨rfl, rfl, ?_, ?_, ?_⟩
  · intro sc hsc
    show ((CloseEvent.setClosing :: st.consumers.map CloseEvent.sessionClose
      ++ [CloseEvent.releaseConn]).count (CloseEvent.sessionClose sc)) = 1
    rw [List.cons_append, List.count_cons, List.count_append,
      List.count_map_of_injective st.consumers CloseEvent.sessionClose hinj sc,
      List.count_eq_one_of_mem h hsc]
    simp
  · show ((CloseEvent.setClosing :: st.consumers.map CloseEvent.sessionClose)
      ++ [CloseEvent.releaseConn]).getLast? = some CloseEvent.releaseConn
    exact List.getLast?_concat _
  · have hnr : CloseEvent.releaseConn ∉
        CloseEvent.setClosing :: st.consumers.map CloseEvent.sessionClose := by
      simp
    have key : ∀ (l1 l : List CloseEvent), CloseEvent.releaseConn ∉ l →
        ∀ l2, l ++ [CloseEvent.releaseConn] = l1 ++ CloseEvent.releaseConn :: l2 →
        l2 = [] := by
      intro l1
      induction l1 with
      | nil =>
        intro l hl l2 heq
        cases l with
        | nil => simpa using heq.symm
        | cons c l' =>
          rw [List.cons_append, List.nil_append] at heq
          have hc : c = CloseEvent.releaseConn := (List.cons.injEq _ _ _ _ ▸ heq).1
          exact absurd (hc ▸ List.mem_cons_self c l') hl
      | cons a l1' ih =>
        intro l hl l2 heq
        cases l with
        | nil =>
          rw [List.nil_append] at heq
          have hlen := congrArg List.length heq
          simp at hlen
        | cons c l' =>
          rw [List.cons_append, List.cons_append] at heq
          have h1 := (List.cons.injEq _ _ _ _ ▸ heq).2
          exact ih l' (fun hmem => hl (List.mem_cons_of_mem c hmem)) l2 h1
    intro l1 l2 heq
    exact key l1 _ hnr l2 heq

/-- Witness for C5 at a concrete two-session registry. -/
theorem Close_drain_order_witness :
    (close (RegState.mk [1, 2] false [] false)).1.closing = true ∧
    (close (RegState.mk [1, 2] false [] false)).2.head? =
      some CloseEvent.setClosing ∧
    (close (RegState.mk [1, 2] false [] false)).2.count
      (CloseEvent.sessionClose 1) = 1 ∧
    (close (RegState.mk [1, 2] false [] false)).2.getLast? =
      some CloseEvent.releaseConn := by
  have h5 := Close_drain_order (RegState.mk [1, 2] false [] false) (by decide)
  exact ⟨h5.1, h5.2.1, h5.2.2.1 1 (by decide), h5.2.2.2.1⟩

/-- One step preserves the closing flag and can only shrink the session
set once closing is set. -/
theorem step_closing_mono (st : RegState) (op : Op) (h : st.closing = true) :
    (step st op).closing = true ∧ (step st op).consumers ⊆ st.consumers := by
  cases op with
  | consumeOp t topic partition offset fuel sc =>
    have hc : consume st t topic partition offset fuel sc =
        ⟨st, some (Except.error KErr.streamClosing), []⟩ := by
      simp [consume, h]
    simp [step, hc, h]
  | cancelOp sc =>
    by_cases hm : sc ∈ st.consumers
    · exact ⟨by simp [step, cancelConsumer, hm, h], by
        simp only [step, cancelConsumer, hm, if_pos]
        exact List.erase_subset sc st.consumers⟩
    · simp [step, cancelConsumer, hm, h]
  | closeOp => simp [step, close, h]

/-- C8: registry invariant — from any state with the closing flag set, after
any sequence of `Consume`, `CancelConsumer` and `Close` calls the flag is
still set and the session set has not grown (it is contained in the starting
set). -/
theorem Registry_closing_monotone (st : RegState) (ops : List Op)
    (h : st.closing = true) :
    (run st ops).closing = true ∧ (run st ops).consumers ⊆ st.consumers := by
  induction ops generalizing st with
  | nil => exact ⟨h, fun x hx => hx⟩
  | cons op rest ih =>
    have h1 := step_closing_mono st op h
    have h2 := ih (step st op) h1.1
    exact ⟨h2.1, fun x hx => h1.2 (h2.2 hx)⟩

/-- Witness for C8: a closed registry run through a consume, a cancel and a
close keeps the flag and does not grow its session set. -/
theorem Registry_closing_monotone_witness :
    (run (RegState.mk [3] true [] false)
      [Op.consumeOp (fun _ _ _ _ => OpenResult.ok 1) "logs" 0 0 5 8,
        Op.cancelOp 3, Op.closeOp]).closing = true ∧
    (run (RegState.mk [3] true [] false)
      [Op.consumeOp (fun _ _ _ _ => OpenResult.ok 1) "logs" 0 0 5 8,
        Op.cancelOp 3, Op.closeOp]).consumers ⊆ [3] :=
  Registry_closing_monotone (RegState.mk [3] true [] false)
    [Op.consumeOp (fun _ _ _ _ => OpenResult.ok 1) "logs" 0 0 5 8,
      Op.cancelOp 3, Op.closeOp] rfl

/-- C10: `Close` never removes sessions — after it runs, the session set is
exactly what it was at the moment of the call (only the flags and the close
log change), every registered session had its `Close` invoked, and the only
API step that removes a session from the registry is `CancelConsumer` on that
very session. -/
theorem Close_frame_session_set (st : RegState) (op : Op) (sc : Nat) :
    (close st).1.consumers = st.consumers ∧
    (close st).1.closing = true ∧
    (∀ s ∈ st.consumers, CloseEvent.sessionClose s ∈ (close st).2) ∧
    (sc ∈ st.consumers → sc ∉ (step st op).consumers → op = Op.cancelOp sc) := by
  refine ⟨rfl, rfl, ?_, ?_⟩
  · intro s hs
    show CloseEvent.sessionClose s ∈
      CloseEvent.setClosing :: st.consumers.map CloseEvent.sessionClose
        ++ [CloseEvent.releaseConn]
    rw [List.cons_append]
    exact List.mem_cons_of_mem _
      (List.mem_append_left _ (List.mem_map_of_mem CloseEvent.sessionClose hs))
  · intro hin hout
    cases op with
    | consumeOp t topic partition offset fuel sc2 =>
      exfalso
      apply hout
      by_cases hcl : st.closing
      · simp [step, consume, hcl, hin]
      · simp only [step, consume, Bool.not_eq_true] at hcl ⊢
        simp only [hcl, Bool.false_eq_true, if_false]
        split
        · exact hin
        · exact hin
        · exact List.mem_insert_of_mem hin
    | cancelOp sc2 =>
      by_cases hm : sc2 ∈ st.consumers
      · simp only [step, cancelConsumer, hm, if_pos] at hout
        by_cases hsc : sc = sc2
        · rw [hsc]
        · exact absurd ((List.mem_erase_of_ne hsc).2 hin) hout
      · simp only [step, cancelConsumer, hm, if_neg, if_false] at hout
        exact absurd hin hout
    | closeOp => exact absurd hin hout

/-- Witness for C10: closing a one-session registry keeps the session in the
set, and the session disappears only through `CancelConsumer`. -/
theorem Close_frame_session_set_witness :
    (close (RegState.mk [5] false [] false)).1.consumers = [5] ∧
    CloseEvent.sessionClose 5 ∈ (close (RegState.mk [5] false [] false)).2 ∧
    Op.cancelOp 5 = Op.cancelOp 5 := by
  have h10 := Close_frame_session_set (RegState.mk [5] false [] false)
    (Op.cancelOp 5) 5
  exact ⟨h10.1, h10.2.2.1 5 (by decide), h10.2.2.2 (by decide) (by decide)⟩

/-! ### Association-list and discovery lemmas -/

theorem assocFind_put_self {α : Type} (k : String) (v : α) (ps : List (String × α)) :
    assocFind k (assocPut k v ps) = some v := by
  induction ps with
  | nil => simp [assocPut, assocFind]
  | cons kv rest ih =>
    obtain ⟨k2, w⟩ := kv
    by_cases h : k2 = k
    · simp [assocPut, assocFind, h]
    · simp [assocPut, assocFind, h, ih]

theorem assocPut_absent {α : Type} (k : String) (v : α) (ps : List (String × α))
    (h : k ∉ ps.map Prod.fst) : assocPut k v ps = ps ++ [(k, v)] := by
  induction ps with
  | nil => simp [assocPut]
  | cons kv rest ih =>
    obtain ⟨k2, w⟩ := kv
    simp only [List.map_cons, List.mem_cons] at h
    push_neg at h
    rw [assocPut, if_neg (fun hc => h.1 hc.symm), ih h.2, List.cons_append]

theorem unmarshal_disjoint : ∀ (v p : JObj), (v.map Prod.fst).Nodup →
    (∀ x ∈ v.map Prod.fst, x ∉ p.map Prod.fst) →
    jsonUnmarshalInto p v = p ++ v := by
  intro v
  induction v with
  | nil => intro p _ _; simp [jsonUnmarshalInto]
  | cons kv v' ih =>
    intro p hnd hdis
    obtain ⟨k, x⟩ := kv
    simp only [List.map_cons, List.nodup_cons] at hnd
    have hput : assocPut k x p = p ++ [(k, x)] :=
      assocPut_absent k x p (hdis k (by simp))
    have hstep : jsonUnmarshalInto p ((k, x) :: v') =
        jsonUnmarshalInto (assocPut k x p) v' := rfl
    rw [hstep, hput, ih (p ++ [(k, x)]) hnd.2 ?_]
    · rw [List.append_assoc]
      rfl
    · intro y hy
      rw [List.map_append]
      simp only [List.mem_append, List.map_cons]
      rintro (hyp | hyk)
      · exact hdis y (by simp [hy]) hyp
      · simp only [List.map_nil, List.mem_singleton] at hyk
        exact hnd.1 (hyk ▸ hy)

theorem brokersLoop_all_ok (zk : ZookeeperClient) :
    ∀ (ps acc : List String), (∀ p ∈ ps, (zk.get p []).1 = none) →
      brokersLoop zk ps acc =
        (acc ++ ps.map (fun p => formatBroker (zk.get p []).2), none) := by
  intro ps
  induction ps with
  | nil => intro acc _; simp [brokersLoop]
  | cons p rest ih =>
    intro acc hok
    have h0 : (zk.get p []).1 = none := hok p (by simp)
    have hrec := ih (acc ++ [formatBroker (zk.get p []).2])
      (fun q hq => hok q (by simp [hq]))
    simp only [brokersLoop, h0, hrec, List.map_cons]
    rw [List.append_assoc]
    rfl

theorem brokersLoop_first_err (zk : ZookeeperClient) (p : String) (e : ZkErr)
    (hp : (zk.get p []).1 = some e) :
    ∀ (ps1 : List String) (acc ps2 : List String),
      (∀ q ∈ ps1, (zk.get q []).1 = none) →
      brokersLoop zk (ps1 ++ p :: ps2) acc = ([], some e) := by
  intro ps1
  induction ps1 with
  | nil => intro acc ps2 _; simp [brokersLoop, hp]
  | cons q rest ih =>
    intro acc ps2 hok
    have h0 : (zk.get q []).1 = none := hok q (by simp)
    have hrec := ih (acc ++ [formatBroker (zk.get q []).2]) ps2
      (fun r hr => hok r (by simp [hr]))
    simp [brokersLoop, h0, hrec]

/-- C7: broker discovery lists `/brokers/ids` and returns one formatted
`host:port` string per listed entry when every fetch succeeds; a listing
error or the first fetch error is propagated with an empty result (no
partial addresses); and on the example store it returns exactly
`["a:9092", "b:9093"]` up to order. -/
theorem FindRegisteredBrokers_spec :
    (∀ (zk : ZookeeperClient) (e : ZkErr),
      zk.list "/brokers/ids" = Except.error e →
      findRegisteredBrokers zk = ([], some e)) ∧
    (∀ (zk : ZookeeperClient) (ps : List String),
      zk.list "/brokers/ids" = Except.ok ps →
      (∀ p ∈ ps, (zk.get p []).1 = none) →
      findRegisteredBrokers zk =
        (ps.map (fun p => formatBroker (zk.get p []).2), none)) ∧
    (∀ (zk : ZookeeperClient) (ps1 : List String) (p : String)
        (ps2 : List String) (e : ZkErr),
      zk.list "/brokers/ids" = Except.ok (ps1 ++ p :: ps2) →
      (∀ q ∈ ps1, (zk.get q []).1 = none) → (zk.get p []).1 = some e →
      findRegisteredBrokers zk = ([], some e)) ∧
    ((findRegisteredBrokers exampleZk.toClient).2 = none ∧
      (findRegisteredBrokers exampleZk.toClient).1.Perm ["a:9092", "b:9093"]) := by
  have hconc : findRegisteredBrokers exampleZk.toClient =
      (["a:9092", "b:9093"], none) := by decide
  refine ⟨?_, ?_, ?_, by rw [hconc], by rw [hconc]⟩
  · intro zk e hl
    simp [findRegisteredBrokers, hl]
  · intro zk ps hl hok
    simp only [findRegisteredBrokers, hl]
    simpa using brokersLoop_all_ok zk ps [] hok
  · intro zk ps1 p ps2 e hl hok hp
    simp only [findRegisteredBrokers, hl]
    exact brokersLoop_first_err zk p e hp ps1 [] ps2 hok

/-- Witness for C7: the error path at a concrete always-failing client, and
the success path at the example store. -/
theorem FindRegisteredBrokers_spec_witness :
    findRegisteredBrokers errListClient = ([], some (ZkErr.other 3)) ∧
    findRegisteredBrokers exampleZk.toClient =
      (["/brokers/ids/0", "/brokers/ids/1"].map
        (fun p => formatBroker (exampleZk.toClient.get p []).2), none) :=
  ⟨FindRegisteredBrokers_spec.1 errListClient (ZkErr.other 3) rfl,
    FindRegisteredBrokers_spec.2.1 exampleZk.toClient
      ["/brokers/ids/0", "/brokers/ids/1"] rfl (by decide)⟩

/-- C9: on the in-memory coordination client, `Get` of an absent key fails
with `ErrNotFound` and leaves the out-value untouched; `Set` returns nil and
a subsequent `Get` of the same key decodes the very value that was set. -/
theorem MockZk_get_set (zk : mockZookeeperClient) (k : String) (out v : JObj) :
    (assocFind k zk.paths = none → zk.Get k out = (some ZkErr.notFound, out)) ∧
    (zk.Set k v).2 = none ∧
    ((v.map Prod.fst).Nodup → (zk.Set k v).1.Get k [] = (none, v)) := by
  refine ⟨?_, rfl, ?_⟩
  · intro h
    simp [mockZookeeperClient.Get, h]
  · intro hnd
    have hfind : assocFind k ((zk.Set k v).1.paths) = some v :=
      assocFind_put_self k v zk.paths
    have hm : jsonUnmarshalInto [] v = v := by
      simpa using unmarshal_disjoint v [] hnd (by simp)
    simp [mockZookeeperClient.Get, hfind, hm]

/-- Witness for C9: a concrete store with an absent key and a set-get round
trip on a broker-style entry. -/
theorem MockZk_get_set_witness :
    (mockZookeeperClient.mk [("/a", [("x", JLeaf.jnum 1)])]).Get "/b"
        [("host", JLeaf.jstr "z")] =
      (some ZkErr.notFound, [("host", JLeaf.jstr "z")]) ∧
    ((mockZookeeperClient.mk [("/a", [("x", JLeaf.jnum 1)])]).Set "/c"
        [("host", JLeaf.jstr "a"), ("port", JLeaf.jnum 9092)]).1.Get "/c" [] =
      (none, [("host", JLeaf.jstr "a"), ("port", JLeaf.jnum 9092)]) := by
  have h9 := MockZk_get_set (mockZookeeperClient.mk [("/a", [("x", JLeaf.jnum 1)])])
    "/b" [("host", JLeaf.jstr "z")] [("host", JLeaf.jstr "a")]
  have h9b := MockZk_get_set (mockZookeeperClient.mk [("/a", [("x", JLeaf.jnum 1)])])
    "/c" [] [("host", JLeaf.jstr "a"), ("port", JLeaf.jnum 9092)]
  exact ⟨h9.1 (by decide), h9b.2.2 (by decide)⟩

end Epee
